import Mathlib

/-!
Verification of the india-equity-news aggregation core.

The repository has two variants of the pipeline:
* `src/api/index.py` — the stateless variant (namespace `Api` below): an
  on-request aggregation that fetches all feeds, filters, dedups in memory,
  sorts and serves a JSON response.
* `src/app.py` — the polling variant (namespace `App` below): a background
  poller inserting into a SQLite table `items` with `UNIQUE(title, source)`,
  served by store queries.

Python strings are modelled as Lean `String`/`List Char`; `None`-able values
as `Option`; machine integers as `Int`/`Nat` (no overflow is possible in the
quantities involved); SQLite rows as a Lean structure and the table as a
`List` of rows.  External collaborators (HTTP transport, the feedparser
decoder) are modelled as inputs to the functions that consume them.
-/

set_option maxRecDepth 100000

/-- Whitespace characters recognised by Python's `str.split`/`str.strip`
(restricted to the ASCII whitespace plus NBSP, which is all that the
development exercises; Python also treats further Unicode spaces the same
way). -/
def isPySpace (c : Char) : Bool :=
  c = ' ' || c = '\t' || c = '\n' || c = '\r' || c = '\x0b' || c = '\x0c' || c = '\xa0'

/-- Python `str.strip()` on a character list. -/
def pyStripL (l : List Char) : List Char :=
  ((l.dropWhile isPySpace).reverse.dropWhile isPySpace).reverse

/-- Python `str.strip()`. -/
def pyStrip (s : String) : String := ⟨pyStripL s.data⟩

/-- Python `a.startswith(b)` on character lists (pattern is the first list). -/
def lStartsWith : List Char → List Char → Bool
  | [], _ => true
  | _ :: _, [] => false
  | p :: ps, h :: hs => p = h && lStartsWith ps hs

/-- Python `s.startswith(pre)`. -/
def pyStartsWith (s pre : String) : Bool := lStartsWith pre.data s.data

/-- Python substring containment `pat in hay` on character lists. -/
def lContainsSub (pat : List Char) : List Char → Bool
  | [] => pat.isEmpty
  | h :: hs => lStartsWith pat (h :: hs) || lContainsSub pat hs

/-- Python `pat in hay` for strings. -/
def pyInStr (pat hay : String) : Bool := lContainsSub pat.data hay.data

/-- Python `str.lower()` (ASCII case mapping; all keywords and inputs used
here are ASCII, where Python's Unicode lowering coincides). -/
def pyLower (s : String) : String := ⟨s.data.map Char.toLower⟩

/-- Python `a or b` for an optional string `a` (None and the empty string are
falsy). -/
def pyOrStr (a : Option String) (b : String) : String :=
  match a with
  | none => b
  | some s => if s = "" then b else s

/-- Python `a or b` where `a` is an optional integer (None and 0 are falsy),
as in `to_ts(published) or to_ts(updated)`. -/
def pyOrOpt (a b : Option Int) : Option Int :=
  match a with
  | none => b
  | some v => if v = 0 then b else some v

/-- Python `link or title` for two strings (empty string is falsy). -/
def pyOrS (a b : String) : String := if a = "" then b else a

/-- Single pass of `html.unescape` over the named character references this
development exercises (`&amp;` `&lt;` `&gt;` `&quot;` `&nbsp;` `&#39;`).
Modelled from the source's `html_lib.unescape` call: replacements are made in
one left-to-right pass and are not themselves re-scanned, matching CPython's
behaviour on the inputs used in the theorems below. -/
def unescape : List Char → List Char
  | '&' :: 'a' :: 'm' :: 'p' :: ';' :: rest => '&' :: unescape rest
  | '&' :: 'l' :: 't' :: ';' :: rest => '<' :: unescape rest
  | '&' :: 'g' :: 't' :: ';' :: rest => '>' :: unescape rest
  | '&' :: 'q' :: 'u' :: 'o' :: 't' :: ';' :: rest => '"' :: unescape rest
  | '&' :: 'n' :: 'b' :: 's' :: 'p' :: ';' :: rest => '\xa0' :: unescape rest
  | '&' :: '#' :: '3' :: '9' :: ';' :: rest => '\'' :: unescape rest
  | c :: rest => c :: unescape rest
  | [] => []

/-- Whether the regex `<[^>]+>` matches at the start of `'<' :: l`: the match
succeeds exactly when the character after `<` exists, is not `>`, and some
later `>` closes the tag. -/
def tagFrom : List Char → Bool
  | [] => false
  | c :: rest => !(c = '>') && rest.contains '>'

/-- One `re.sub(r"<[^>]+>", "", text)` scanner step, with explicit fuel so the
function is structurally recursive (the fuel is always instantiated with the
input length, which suffices since every step consumes at least one
character). -/
def stripTagsF : Nat → List Char → List Char
  | 0, l => l
  | _ + 1, [] => []
  | f + 1, c :: rest =>
    if c = '<' && tagFrom rest then
      stripTagsF f ((rest.dropWhile (fun x => !(x = '>'))).tail)
    else
      c :: stripTagsF f rest

/-- Python `re.sub(r"<[^>]+>", "", text)`. -/
def stripTags (l : List Char) : List Char := stripTagsF l.length l

/-- Core of Python `" ".join(text.split())` assuming no leading whitespace:
every maximal interior whitespace run becomes a single space, a trailing run
disappears. -/
def collapseCore : List Char → List Char
  | [] => []
  | c :: rest =>
    if isPySpace c then
      match collapseCore rest with
      | [] => []
      | d :: ds => if d = ' ' then d :: ds else ' ' :: d :: ds
    else
      c :: collapseCore rest

/-- Python `" ".join(text.split())`. -/
def collapseWs (l : List Char) : List Char := collapseCore (l.dropWhile isPySpace)

/-- Model of `clean_text` (identical code in `src/api/index.py` lines 44-49
and `src/app.py` lines 6-14): entity decoding, tag stripping, whitespace
normalisation; falsy input short-circuits to the empty string. -/
def clean_text (raw : String) : String :=
  if raw = "" then "" else ⟨collapseWs (stripTags (unescape raw.data))⟩

/-- Whether a list contains a match of `<[^>]+>` (a tag-delimited sequence). -/
def hasTag : List Char → Bool
  | [] => false
  | c :: rest => (c = '<' && tagFrom rest) || hasTag rest

/-- Scanner witnessing that no `<` in the list opens a tag: every `<` is
immediately followed by `>` or has no `>` anywhere after it. -/
def qOk : List Char → Bool
  | [] => true
  | c :: rest =>
    if c = '<' then
      match rest with
      | [] => true
      | d :: _ => if d = '>' then qOk rest else !rest.contains '>'
    else qOk rest

/-- Whether a list contains an HTML entity sequence `&name;` (ampersand,
one or more letters, semicolon). -/
def entityAt (l : List Char) : Bool :=
  let pre := l.takeWhile (fun c => c.isAlpha)
  decide (0 < pre.length) && ((l.drop pre.length).head? = some ';')

/-- Whether a list contains an `&name;` HTML entity sequence. -/
def hasEntitySeq : List Char → Bool
  | [] => false
  | c :: rest => (c = '&' && entityAt rest) || hasEntitySeq rest

/-- A `time.struct_time` as produced by feedparser: the six calendar fields
used by `calendar.timegm`/`time.mktime` (the weekday, yearday and isdst
fields are not consulted by `calendar.timegm`; feedparser emits `isdst = 0`,
and the polling variant is modelled for a host with a fixed UTC offset, so
they are omitted). -/
structure StructTime where
  year : Nat
  mon : Nat
  mday : Nat
  hour : Nat
  minute : Nat
  sec : Nat
deriving DecidableEq, Repr

/-- Proleptic-Gregorian leap-year test. -/
def isLeap (y : Nat) : Bool := (y % 4 = 0 && y % 100 ≠ 0) || y % 400 = 0

/-- Days in the years before year `y` (proleptic Gregorian, year ≥ 1), as in
`datetime.date.toordinal`. -/
def daysBeforeYear (y : Nat) : Nat :=
  365 * (y - 1) + (y - 1) / 4 - (y - 1) / 100 + (y - 1) / 400

/-- Days in year `y` before month `m` (1-indexed). -/
def daysBeforeMonth (y m : Nat) : Nat :=
  let cum := [0, 31, 59, 90, 120, 151, 181, 212, 243, 273, 304, 334]
  (cum.getD (m - 1) 0) + (if 2 < m && isLeap y then 1 else 0)

/-- `datetime.date(y, m, d).toordinal()`: days since 0001-01-00. -/
def toordinal (y m d : Nat) : Nat := daysBeforeYear y + daysBeforeMonth y m + d

/-- `calendar.timegm` on the six calendar fields: seconds since the epoch with
the fields read as UTC wall-clock components (`719163` is the ordinal of
1970-01-01).  `timegm` validates only what `datetime.date(year, month, 1)`
validates; the guard lives in `to_ts_utc`. -/
def timegm (st : StructTime) : Int :=
  ((toordinal st.year st.mon 1 : Int) - 719163 + (st.mday : Int) - 1) * 86400
    + st.hour * 3600 + st.minute * 60 + st.sec

/-- Whether `datetime.date(year, month, 1)` (hence `calendar.timegm`) accepts
the fields: month 1..12, year 1..9999. -/
def tsFieldsOk (st : StructTime) : Bool :=
  1 ≤ st.year && st.year ≤ 9999 && 1 ≤ st.mon && st.mon ≤ 12

/-- `to_ts_utc` from `src/api/index.py` lines 52-60: `None` input stays
`None` (a `struct_time` is always truthy), the fields are read as UTC via
`calendar.timegm`, and any exception (out-of-range fields) yields `None`. -/
def to_ts_utc (st : Option StructTime) : Option Int :=
  match st with
  | none => none
  | some s => if tsFieldsOk s then some (timegm s) else none

/-- The wall-clock reading `time.mktime` computes for the given fields,
before the timezone shift.  Unlike `calendar.timegm`, C `mktime` does not
validate its fields: out-of-range values are normalised by carrying — the
year/month pair is reduced so the month lands in 1..12 (month 13 becomes
January of the next year, month 0 December of the previous one), and the
day, hour, minute and second fields act as plain offsets. -/
def mktimeFields (st : StructTime) : Int :=
  let total := 12 * st.year + st.mon - 1
  let y := total / 12
  let m := total % 12 + 1
  ((toordinal y m 1 : Int) - 719163 + (st.mday : Int) - 1) * 86400
    + st.hour * 3600 + st.minute * 60 + st.sec

/-- `to_ts` from `src/app.py` lines 96-100: `None` input stays `None` (a
`struct_time` is always truthy); otherwise the fields are read by
`time.mktime`, i.e. as local wall-clock time of the host, modelled as a
fixed offset `tzOff` in seconds east of UTC (IST is `19800`, no DST);
`mktime` returns the normalised reading minus that offset.  The bare
`except:` catches only an overflow beyond the host's `time_t` range, which
no field values exercised here can reach, so it is not modelled. -/
def to_ts (tzOff : Int) (st : Option StructTime) : Option Int :=
  match st with
  | none => none
  | some s => some (mktimeFields s - tzOff)

/-- Civil date from days since the epoch (Gregorian), used to model the
`datetime.fromtimestamp(ts, utc).astimezone(IST)` display conversion. -/
def civilFromDays (z0 : Int) : Int × Nat × Nat :=
  let z := z0 + 719468
  let era := z.fdiv 146097
  let doe := (z - era * 146097).toNat
  let yoe := (doe - doe / 1460 + doe / 36524 - doe / 146096) / 365
  let doy := doe - (365 * yoe + yoe / 4 - yoe / 100)
  let mp := (5 * doy + 2) / 153
  let d := doy - (153 * mp + 2) / 5 + 1
  let m := if mp < 10 then mp + 3 else mp - 9
  (if m ≤ 2 then (yoe : Int) + era * 400 + 1 else (yoe : Int) + era * 400, m, d)

/-- Month abbreviations of `strftime %b` (C locale). -/
def monthName (m : Nat) : String :=
  ["Jan", "Feb", "Mar", "Apr", "May", "Jun",
   "Jul", "Aug", "Sep", "Oct", "Nov", "Dec"].getD (m - 1) ""

/-- Zero-padded two-digit rendering used by `%d`, `%I`, `%M`. -/
def pad2 (n : Nat) : String := if n < 10 then "0" ++ Nat.repr n else Nat.repr n

/-- `fmt_ts`/`fmt_ts_ist` (`src/app.py` lines 104-112, `src/api/index.py`
lines 63-70): falsy input (None or 0) yields `None`; otherwise the epoch is
converted to IST (UTC+5:30, no DST) and rendered `DD Mon YYYY, HH:MM AM/PM
IST`. -/
def fmt_ts (ts : Option Int) : Option String :=
  match ts with
  | none => none
  | some t =>
    if t = 0 then none
    else
      let ist := t + 19800
      let days := ist.fdiv 86400
      let secs := (ist.fmod 86400).toNat
      let ymd := civilFromDays days
      let hh := secs / 3600
      let mm := secs % 3600 / 60
      let h12 := if hh % 12 = 0 then 12 else hh % 12
      let ampm := if hh < 12 then "AM" else "PM"
      some (pad2 ymd.2.2 ++ " " ++ monthName ymd.2.1 ++ " " ++ Nat.repr ymd.1.toNat
        ++ ", " ++ pad2 h12 ++ ":" ++ pad2 mm ++ " " ++ ampm ++ " IST")

/-- A raw feedparser entry: the fields the pipeline reads via `e.get(...)`
(absent keys are `none`). -/
structure RawEntry where
  title : Option String := none
  link : Option String := none
  summary : Option String := none
  description : Option String := none
  published_parsed : Option StructTime := none
  updated_parsed : Option StructTime := none
deriving DecidableEq, Repr

/-- A parsed feed as returned by `feedparser.parse`: the bozo flag and the
entry list (the only fields the pipeline consults). -/
structure Feed where
  bozo : Bool
  entries : List RawEntry
deriving DecidableEq, Repr

/-- Outcome of `requests.get(url, headers=..., timeout=15)` followed by
`r.raise_for_status()`: a timeout, a connection error, or a response with an
HTTP status code and body bytes.  `raise_for_status` raises exactly for
status codes 400-599. -/
inductive ReqResult where
  | timeout
  | connError
  | ok (status : Nat) (content : List Nat)
deriving DecidableEq, Repr

/-- `fetch_feed` from `src/api/index.py` lines 144-157.  The feed decoder is
passed in as `parse` (an external collaborator turning bytes into a `Feed`).
Every failure path — transport exception, `raise_for_status` on a 4xx/5xx
status, or a bozo flag from the decoder — returns `none`; otherwise the
parsed feed is returned, even when its entry list is empty. -/
def fetch_feed (parse : List Nat → Feed) (r : ReqResult) : Option Feed :=
  match r with
  | .timeout => none
  | .connError => none
  | .ok status content =>
    if 400 ≤ status ∧ status < 600 then none
    else
      let feed := parse content
      if feed.bozo then none else some feed

/-- Whether an HTTP status is a 2xx success, as the spec's claim phrases it. -/
def is2xx (s : Nat) : Bool := 200 ≤ s && s < 300

namespace Api

/-- `INCLUDE_KEYWORDS` of `src/api/index.py`. -/
def INCLUDE_KEYWORDS : List String :=
  ["nse", "bse", "nifty", "sensex", "dividend", "buyback", "split", "bonus",
   "rights issue", "ipo", "results", "earnings", "shares", "stock", "equity",
   "equities", "gold", "silver", "commodities"]

/-- `EXCLUDE_KEYWORDS` of `src/api/index.py`. -/
def EXCLUDE_KEYWORDS : List String := ["crypto", "bitcoin", "ethereum"]

/-- `passes_filter` from `src/api/index.py` lines 137-141: lower-case the
haystack, reject on any exclusion keyword, otherwise accept on any inclusion
keyword. -/
def passes_filter (text : String) : Bool :=
  let t := pyLower text
  if EXCLUDE_KEYWORDS.any (fun x => pyInStr x t) then false
  else INCLUDE_KEYWORDS.any (fun k => pyInStr k t)

/-- The per-entry relevance decision of `api_news` (lines 191-193): sources
whose name starts with `"NSE "` bypass the keyword filter; all others are
filtered on the combined `title ++ " " ++ summary` haystack. -/
def filterStage (sourceName title summary : String) : Bool :=
  pyStartsWith sourceName "NSE " || passes_filter (title ++ " " ++ summary)

end Api

namespace App

/-- `INCLUDE_KEYWORDS` of `src/app.py`. -/
def INCLUDE_KEYWORDS : List String :=
  ["nse", "bse", "nifty", "sensex", "dividend", "buyback", "split", "bonus",
   "rights", "ipo", "results", "earnings", "shares", "stock", "equity"]

/-- `EXCLUDE_KEYWORDS` of `src/app.py`. -/
def EXCLUDE_KEYWORDS : List String := ["crypto", "bitcoin", "ethereum"]

/-- `passes_filter` from `src/app.py` lines 72-76; at its only call site
(line 141) the argument is the entry title alone. -/
def passes_filter (title : String) : Bool :=
  let t := pyLower title
  if EXCLUDE_KEYWORDS.any (fun x => pyInStr x t) then false
  else INCLUDE_KEYWORDS.any (fun k => pyInStr k t)

/-- The per-entry relevance decision of `fetch_once` (lines 139-142): the one
trusted source name bypasses the filter, all others are filtered on the raw
title. -/
def filterStage (source title : String) : Bool :=
  source = "NSE Corporate Actions (Official)" || passes_filter title

end App

/-- The spec's own acceptance rule (section 4.3), stated from its words for
comparison with the code: accepted iff the combined case-insensitive
title + summary haystack contains at least one inclusion keyword and none of
the exclusion keywords as substrings. -/
def specFilterAccepts (incl excl : List String) (title summary : String) : Bool :=
  let hay := pyLower (title ++ " " ++ summary)
  incl.any (fun k => pyInStr k hay) && !(excl.any (fun x => pyInStr x hay))

namespace Api

/-- A deduplicated in-memory news item of the stateless variant (the dict
built at `src/api/index.py` lines 210-219). -/
structure Item where
  title : String
  link : String
  source : String
  summary : String
  published : Option String
  published_ts : Option Int
deriving DecidableEq, Repr

/-- The dedup key of the stateless variant (line 205): `(link or title,
source_name)`. -/
def memKey (i : Item) : String × String := (pyOrS i.link i.title, i.source)

/-- Accumulator of the entry loop: collected items plus the `seen` key set
(modelled as the list of keys in insertion order; only membership is ever
consulted). -/
structure AggState where
  items : List Item
  seen : List (String × String)
deriving Repr

/-- The body of the entry loop of `api_news` (lines 183-219) for one raw
entry: normalise, drop empty titles, apply the relevance stage, the optional
user query `q`, resolve the timestamp, and dedup on `(link or title,
source)`. -/
def procEntry (q sourceName : String) (st : AggState) (e : RawEntry) : AggState :=
  let title := clean_text (pyStrip (pyOrStr e.title ""))
  let link := pyStrip (pyOrStr e.link "")
  let summary := clean_text (pyOrStr e.summary (pyOrStr e.description ""))
  if title = "" then st
  else if !filterStage sourceName title summary then st
  else if q ≠ "" && !pyInStr q (pyLower (title ++ " " ++ summary)) then st
  else
    let pub := pyOrOpt (to_ts_utc e.published_parsed) (to_ts_utc e.updated_parsed)
    let key := (pyOrS link title, sourceName)
    if key ∈ st.seen then st
    else
      { items := st.items ++ [⟨title, link, sourceName, summary, fmt_ts pub, pub⟩],
        seen := st.seen ++ [key] }

/-- One iteration of the source loop of `api_news` (lines 175-182): skip the
source when the `?src=` filter names a different one or when its fetch
failed, otherwise run the entry loop on the first 50 entries. -/
def procFeed (q src : String) (st : AggState) (nf : String × Option Feed) :
    AggState :=
  if src ≠ "" && src ≠ nf.1 then st
  else
    match nf.2 with
    | none => st
    | some feed => (feed.entries.take 50).foldl (procEntry q nf.1) st

/-- The source loop of `api_news` (lines 175-219).  `feeds` pairs each
configured source name with the result of `fetch_feed` on its URL (the
transport being external, the fetch outcomes are the function's input);
`src` is the `?src=` query filter. -/
def collectItems (q src : String) (feeds : List (String × Option Feed)) : List Item :=
  (feeds.foldl (procFeed q src) ⟨[], []⟩).items

/-- The sort key of line 222: `x["published_ts"] or 0`. -/
def keyD (i : Item) : Int := i.published_ts.getD 0

/-- Descending order on the sort key; `items.sort(key=..., reverse=True)` is
a stable descending sort, which `List.insertionSort` with this relation
implements. -/
def keyGe (a b : Item) : Prop := keyD b ≤ keyD a

instance : DecidableRel keyGe := fun a b => Int.decLe (keyD b) (keyD a)

instance : IsTotal Item keyGe := ⟨fun x y => le_total (keyD y) (keyD x)⟩

instance : IsTrans Item keyGe := ⟨fun _ _ _ h1 h2 => le_trans h2 h1⟩

/-- The aggregated list after the sort of line 222. -/
def sortedItems (q src : String) (feeds : List (String × Option Feed)) : List Item :=
  List.insertionSort keyGe (collectItems q src feeds)

/-- A serialised item of the JSON response: the dict comprehension of line
229 keeps exactly `title`, `link`, `source`, `summary`, `published` and drops
`published_ts`. -/
structure SerialItem where
  title : String
  link : String
  source : String
  summary : String
  published : Option String
deriving DecidableEq, Repr

/-- The serialisation of line 229. -/
def serializeItem (i : Item) : SerialItem :=
  ⟨i.title, i.link, i.source, i.summary, i.published⟩

/-- The `/api/news` JSON payload of lines 224-232. -/
structure Response where
  sources : List String
  count : Nat
  items : List SerialItem
  generated_at : Option String
deriving Repr

/-- `api_news` from `src/api/index.py` lines 167-237 (the `q`/`src` request
arguments are normalised on entry; `now` is the `time.time()` call of line
230). -/
def api_news (qArg srcArg : String) (feeds : List (String × Option Feed))
    (now : Int) : Response :=
  let q := pyLower (pyStrip qArg)
  let src := pyStrip srcArg
  let items := sortedItems q src feeds
  { sources := feeds.map Prod.fst,
    count := items.length,
    items := (items.take 150).map serializeItem,
    generated_at := fmt_ts (some now) }

end Api

namespace App

/-- A row of the `items` table (`src/app.py` lines 81-92).  The autoincrement
`id` column is never read by the pipeline and is left out; uniqueness is the
`UNIQUE(title, source)` constraint. -/
structure Row where
  title : String
  link : String
  source : String
  summary : String
  published_ts : Option Int
  fetched_ts : Int
deriving DecidableEq, Repr

/-- The table, in insertion order. -/
abbrev DB := List Row

/-- `INSERT OR IGNORE` against `UNIQUE(title, source)` (lines 146-154): if a
row with the same `(title, source)` exists the statement is a no-op and
`cur.rowcount` is 0, otherwise the row is appended and `rowcount` is 1.
Returns the new table and whether a row was inserted. -/
def insertOrIgnore (db : DB) (r : Row) : DB × Bool :=
  if ∃ x ∈ db, x.title = r.title ∧ x.source = r.source then (db, false)
  else (db ++ [r], true)

/-- The dedup key of the persistent variant. -/
def rowKey (r : Row) : String × String := (r.title, r.source)

/-- The entry-loop body of `fetch_once` (lines 131-154) for one raw entry,
acting on `(table, inserted-count-for-this-source)`.  Note the title is only
stripped (not `clean_text`-ed) and the relevance filter sees the title
alone. -/
def procEntryA (tzOff now : Int) (source : String) (acc : DB × Nat)
    (e : RawEntry) : DB × Nat :=
  let title := pyStrip (pyOrStr e.title "")
  let link := pyStrip (pyOrStr e.link "")
  let summary := clean_text (pyOrStr e.summary (pyOrStr e.description ""))
  if title = "" then acc
  else if !filterStage source title then acc
  else
    let pub := pyOrOpt (to_ts tzOff e.published_parsed) (to_ts tzOff e.updated_parsed)
    let res := insertOrIgnore acc.1 ⟨title, link, source, summary, pub, now⟩
    if res.2 then (res.1, acc.2 + 1) else acc

/-- What one source's fetch produced in a poll cycle: a bozo-flagged parse
(with the bozo exception's type name), an exception escaping the per-source
`try` (with its type name), or a parsed entry list.  The network being
external, these outcomes are the cycle's input. -/
inductive SourceResult where
  | bozo (excName : String)
  | exc (excName : String)
  | parsed (entries : List RawEntry)
deriving Repr

/-- The process-wide `STATUS` dict (lines 66-70): last run display string,
per-source outcome strings, most recent error message (None and the empty
string are both falsy in the `not STATUS["last_error"]` check; error messages
are nonempty, so `Option String` with `none` as the falsy case is faithful). -/
structure Status where
  last_run : Option String
  per_source : List (String × String)
  last_error : Option String
deriving DecidableEq, Repr

/-- State threaded through the source loop of `fetch_once`: the table, the
total insert count, this cycle's per-source outcomes, and the global
`last_error` (mutated in place by the `except` branch). -/
structure LoopState where
  db : DB
  total : Nat
  ps : List (String × String)
  lastErr : Option String
deriving Repr

/-- One iteration of the source loop of `fetch_once` (lines 122-160).  The
`repr(ex)` in the error message is modelled by the exception's type name. -/
def procSource (tzOff now : Int) (st : LoopState) (sr : String × SourceResult) :
    LoopState :=
  match sr.2 with
  | .bozo n => { st with ps := st.ps ++ [(sr.1, "bozo: " ++ n)] }
  | .exc n =>
    { st with
      ps := st.ps ++ [(sr.1, "error: " ++ n)]
      lastErr := some (sr.1 ++ ": " ++ n) }
  | .parsed es =>
    let r := (es.take 50).foldl (procEntryA tzOff now sr.1) (st.db, 0)
    { db := r.1
      total := st.total + r.2
      ps := st.ps ++ [(sr.1, "ok (+" ++ Nat.repr r.2 ++ ")")]
      lastErr := st.lastErr }

/-- The generic diagnostic of line 168. -/
def genericMsg : String :=
  "No new items inserted (may be empty feeds or blocked requests)."

/-- The source-loop portion of `fetch_once`: fold `procSource` over the
cycle's per-source outcomes starting from the current table and the current
global `last_error`. -/
def runSources (tzOff now : Int) (results : List (String × SourceResult))
    (db : DB) (lastErr : Option String) : LoopState :=
  results.foldl (procSource tzOff now) ⟨db, 0, [], lastErr⟩

/-- `fetch_once` from `src/app.py` lines 114-168: run the source loop, then
overwrite `last_run` and `per_source`, and set the generic diagnostic when
nothing was inserted and `last_error` is still falsy. -/
def fetch_once (tzOff now : Int) (results : List (String × SourceResult))
    (db : DB) (st : Status) : DB × Status :=
  let l := runSources tzOff now results db st.last_error
  let le := if l.total = 0 ∧ l.lastErr = none then some genericMsg else l.lastErr
  (l.db, ⟨fmt_ts (some now), l.ps, le⟩)

/-- `COALESCE(published_ts, fetched_ts)` (SQL NULL handling: only NULL falls
through, a stored 0 is kept). -/
def coalKey (r : Row) : Int :=
  match r.published_ts with
  | some v => v
  | none => r.fetched_ts

/-- Descending order on the coalesced timestamp, as in `ORDER BY
COALESCE(published_ts, fetched_ts) DESC` (ties are returned in insertion
order; SQLite leaves tie order unspecified, and no theorem below depends on
it). -/
def coalGe (a b : Row) : Prop := coalKey b ≤ coalKey a

instance : DecidableRel coalGe := fun a b => Int.decLe (coalKey b) (coalKey a)

instance : IsTotal Row coalGe := ⟨fun x y => le_total (coalKey y) (coalKey x)⟩

instance : IsTrans Row coalGe := ⟨fun _ _ _ h1 h2 => le_trans h2 h1⟩

/-- The `/api/news` query of `src/app.py` lines 294-309: all rows ordered by
the coalesced timestamp descending, limited to 250; each row is serialised
with all six stored fields. -/
def api_news (db : DB) : List Row :=
  (List.insertionSort coalGe db).take 250

/-- The page query of `src/app.py` lines 260-278 restricted to its ordering
and limit (150 rows), used by the pagination claim. -/
def pageQuery (db : DB) : List Row :=
  (List.insertionSort coalGe db).take 150

end App

/-- Invariant of the stateless aggregation loop: the `seen` set is exactly
the set of dedup keys of the collected items, and those keys are pairwise
distinct. -/
def Api.aggInv (st : Api.AggState) : Prop :=
  (∀ k, k ∈ st.seen ↔ k ∈ st.items.map Api.memKey) ∧
  (st.items.map Api.memKey).Nodup

/-- The persistent-store invariant: no two rows share `(title, source)`. -/
def App.dbNodup (db : App.DB) : Prop := (db.map App.rowKey).Nodup

def c2Entry1 : RawEntry :=
  { title := some "Record date announced", link := some "http://a/1" }

def c2Entry2 : RawEntry :=
  { title := some "Record date announced", link := some "http://a/2" }

def c2Feeds : List (String × Option Feed) :=
  [("NSE Corporate Actions (Official)", some ⟨false, [c2Entry1, c2Entry2]⟩)]

def c2AppEntry : RawEntry :=
  { title := some "Dividend declared", link := some "http://x" }

def c2AppRes : List (String × App.SourceResult) :=
  [("NSE Corporate Actions (Official)", App.SourceResult.parsed [c2AppEntry, c2AppEntry])]

def c6Entry1 : RawEntry := { title := some "alpha" }

def c6Entry2 : RawEntry :=
  { title := some "beta"
    published_parsed := some ⟨1970, 1, 1, 0, 0, 0⟩
    updated_parsed := some ⟨1970, 1, 1, 0, 0, 0⟩ }

def c6Feeds : List (String × Option Feed) :=
  [("NSE Test", some ⟨false, [c6Entry1, c6Entry2]⟩)]

def c6Row1 : App.Row := ⟨"A", "", "S", "", none, 1000⟩

def c6Row2 : App.Row := ⟨"B", "", "S", "", some 500, 1000⟩

/-- Whether a source outcome is an exception escaping the per-source `try`
(the only path that writes `STATUS["last_error"]` inside the loop). -/
def App.isExc : App.SourceResult → Bool
  | .exc _ => true
  | _ => false

def c9Status0 : App.Status := ⟨none, [], none⟩

def c9Res1 : List (String × App.SourceResult) :=
  [("LiveMint Markets", App.SourceResult.exc "Timeout")]

def c9Res2 : List (String × App.SourceResult) :=
  [("LiveMint Markets", App.SourceResult.parsed [])]

def c10Entries : List RawEntry :=
  (List.range 50).map (fun i => { title := some ("stock" ++ Nat.repr i) })

def c10Extra : RawEntry := { title := some "extra item" }

def c10Feeds : List (String × Option Feed) :=
  [("NSE A", some ⟨false, c10Entries⟩), ("NSE B", some ⟨false, c10Entries⟩),
   ("NSE C", some ⟨false, c10Entries⟩), ("NSE D", some ⟨false, [c10Extra]⟩)]

theorem sample_timegm : timegm ⟨2024, 1, 15, 10, 0, 0⟩ = 1705312800 := by decide

theorem sample_to_ts_utc : to_ts_utc (some ⟨2024, 1, 15, 10, 0, 0⟩) = some 1705312800 := by decide

theorem sample_to_ts_ist : to_ts 19800 (some ⟨2024, 1, 15, 10, 0, 0⟩) = some 1705293000 := by decide

theorem sample_fmt_ts : fmt_ts (some 1705312800) = some "15 Jan 2024, 03:30 PM IST" := by decide

theorem sample_clean_text : clean_text "  a&nbsp;&amp;<b>bold</b>  c " = "a &bold c" := by decide

theorem sample_clean_text_double_escape : clean_text "&amp;amp;" = "&amp;" := by decide

/-- Fold invariant preservation helper. -/
theorem foldlInv {α σ : Type _} (f : σ → α → σ) (P : σ → Prop)
    (h : ∀ s a, P s → P (f s a)) : ∀ (l : List α) (s : σ), P s → P (l.foldl f s)
  | [], _, hs => hs
  | a :: l, s, hs => foldlInv f P h l (f s a) (h s a hs)

/-- Tag stripping only deletes characters. -/
theorem stripTagsF_sublist : ∀ (f : Nat) (l : List Char),
    List.Sublist (stripTagsF f l) l
  | 0, l => List.Sublist.refl l
  | _ + 1, [] => List.Sublist.refl []
  | f + 1, c :: rest => by
    simp only [stripTagsF]
    by_cases h : (c = '<' && tagFrom rest) = true
    · rw [if_pos h]
      exact ((stripTagsF_sublist f _).trans
        ((List.tail_sublist _).trans (List.dropWhile_sublist _))).trans
        (List.sublist_cons_self c rest)
    · rw [if_neg h]
      exact (stripTagsF_sublist f rest).cons₂ c

/-- Stripping the empty list gives the empty list at any fuel. -/
theorem stripTagsF_nil : ∀ f : Nat, stripTagsF f [] = []
  | 0 => rfl
  | _ + 1 => rfl

/-- Unfolding helper for `hasTag` on a cons cell. -/
theorem hasTag_cons (c : Char) (rest : List Char) :
    hasTag (c :: rest) = ((c = '<' && tagFrom rest) || hasTag rest) := rfl

/-- A cons list has `tagFrom = false` when its head is `>` or it contains no
`>` past the head. -/
theorem tagFrom_cons (c : Char) (rest : List Char) :
    tagFrom (c :: rest) = (!(c = '>') && rest.contains '>') := rfl

/-- A list without `>` has no tag match. -/
theorem hasTag_eq_false_of_no_gt : ∀ l : List Char, '>' ∉ l → hasTag l = false
  | [], _ => rfl
  | c :: rest, h => by
    have h1 : '>' ∉ rest := fun hm => h (List.mem_cons_of_mem c hm)
    have h2 : tagFrom rest = false := by
      cases rest with
      | nil => rfl
      | cons d rest' =>
        have hd : List.contains rest' '>' = false := by
          simpa using fun hm => h1 (List.mem_cons_of_mem d hm)
        rw [tagFrom_cons, hd, Bool.and_false]
    rw [hasTag_cons, h2, hasTag_eq_false_of_no_gt rest h1]
    simp

/-- The `qOk` scanner implies the absence of any tag match. -/
theorem hasTag_eq_false_of_qOk : ∀ l : List Char, qOk l = true → hasTag l = false
  | [], _ => rfl
  | c :: rest, h => by
    by_cases hc : c = '<'
    · subst hc
      cases rest with
      | nil => rfl
      | cons d rest' =>
        by_cases hd : d = '>'
        · subst hd
          have hq : qOk ('>' :: rest') = true := by simpa [qOk] using h
          have ht : tagFrom ('>' :: rest') = false := by simp [tagFrom_cons]
          rw [hasTag_cons, ht, hasTag_eq_false_of_qOk _ hq]
          simp
        · have hng : List.contains (d :: rest') '>' = false := by
            have h2 := h
            simp only [qOk, if_pos rfl, if_neg hd] at h2
            simpa using h2
          have hmem : '>' ∉ (d :: rest') := by simpa using hng
          have ht : tagFrom (d :: rest') = false := by
            have hr : List.contains rest' '>' = false := by
              simpa using fun hm => hmem (List.mem_cons_of_mem d hm)
            rw [tagFrom_cons, hr, Bool.and_false]
          rw [hasTag_cons, ht, hasTag_eq_false_of_no_gt _ hmem]
          simp
    · have hq : qOk rest = true := by simpa [qOk, hc] using h
      rw [hasTag_cons, hasTag_eq_false_of_qOk rest hq]
      simp [hc]

/-- Unfolding: `qOk` skips any character other than `<`. -/
theorem qOk_cons_ne (c : Char) (rest : List Char) (h : ¬c = '<') :
    qOk (c :: rest) = qOk rest := by
  simp [qOk, h]

/-- Unfolding: a `<` immediately followed by `>` is harmless. -/
theorem qOk_lt_cons_gt (rest' : List Char) :
    qOk ('<' :: '>' :: rest') = qOk ('>' :: rest') := by
  simp [qOk]

/-- Unfolding: a `<` followed by a non-`>` character demands no later `>`. -/
theorem qOk_lt_cons_ne (d : Char) (ds : List Char) (h : ¬d = '>') :
    qOk ('<' :: d :: ds) = !(d :: ds).contains '>' := by
  simp [qOk, h]

/-- Key structural property of tag stripping: in the output, every surviving
`<` is followed immediately by `>` or has no `>` after it at all, so no tag
match can remain. -/
theorem qOk_stripTagsF : ∀ (f : Nat) (l : List Char), l.length ≤ f →
    qOk (stripTagsF f l) = true
  | 0, l, h => by
    have hl : l = [] := List.eq_nil_of_length_eq_zero (Nat.le_zero.mp h)
    subst hl; rfl
  | _ + 1, [], _ => rfl
  | f + 1, c :: rest, h => by
    have hr : rest.length ≤ f := by
      have : rest.length + 1 ≤ f + 1 := by simpa using h
      omega
    by_cases hcase : (c = '<' && tagFrom rest) = true
    · have hstep : stripTagsF (f + 1) (c :: rest) =
          stripTagsF f ((rest.dropWhile (fun x => !(x = '>'))).tail) := by
        simp [stripTagsF, hcase]
      rw [hstep]
      refine qOk_stripTagsF f _ ?_
      calc ((rest.dropWhile (fun x => !(x = '>'))).tail).length
          ≤ (rest.dropWhile (fun x => !(x = '>'))).length := by
            rw [List.length_tail]; omega
        _ ≤ rest.length := (List.dropWhile_sublist _).length_le
        _ ≤ f := hr
    · have hstep : stripTagsF (f + 1) (c :: rest) = c :: stripTagsF f rest := by
        simp only [stripTagsF]
        rw [if_neg hcase]
      rw [hstep]
      by_cases hc : c = '<'
      · subst hc
        have htf : tagFrom rest = false := by
          rcases Bool.eq_false_iff.mpr hcase |>.symm with h2
          by_contra hcon
          exact hcase (by simp [eq_true_of_ne_false fun hx => hcon hx])
        cases rest with
        | nil => rw [stripTagsF_nil]; rfl
        | cons r0 rest' =>
          by_cases hr0 : r0 = '>'
          · subst hr0
            cases f with
            | zero => simp at hr
            | succ f' =>
              have hs2 : stripTagsF (f' + 1) ('>' :: rest') =
                  '>' :: stripTagsF f' rest' := by
                have : (('>' : Char) = '<' && tagFrom rest') = false := by
                  simp
                simp only [stripTagsF]
                rw [this, if_neg (by simp)]
              rw [hs2, qOk_lt_cons_gt]
              have hr' : rest'.length ≤ f' := by
                simp at hr; omega
              have hq' : qOk (stripTagsF f' rest') = true :=
                qOk_stripTagsF f' rest' hr'
              rw [qOk_cons_ne '>' _ (by decide)]
              exact hq'
          · have hnc : List.contains rest' '>' = false := by
              rw [tagFrom_cons] at htf
              have : (!(r0 = '>') : Bool) = true := by simp [hr0]
              rw [this, Bool.true_and] at htf
              exact htf
            have hmem : '>' ∉ (r0 :: rest') := by
              intro hx
              rcases List.mem_cons.mp hx with h1 | h2
              · exact hr0 h1.symm
              · rw [show List.contains rest' '>' = true by simpa using h2] at hnc
                cases hnc
            have hsub := stripTagsF_sublist f (r0 :: rest')
            have hmem2 : '>' ∉ stripTagsF f (r0 :: rest') :=
              fun hx => hmem (hsub.mem hx)
            cases hS : stripTagsF f (r0 :: rest') with
            | nil => rfl
            | cons e es =>
              have he : ¬e = '>' := by
                intro hx
                exact hmem2 (by rw [hS, hx]; exact List.mem_cons_self _ _)
              rw [qOk_lt_cons_ne e es he]
              have : List.contains (e :: es) '>' = false := by
                have : '>' ∉ (e :: es) := by rw [← hS]; exact hmem2
                simpa using this
              rw [this]
              rfl
      · rw [qOk_cons_ne c _ hc]
        exact qOk_stripTagsF f rest hr

/-- Characters of the collapsed list come from the input or are the inserted
single spaces. -/
theorem mem_collapseCore : ∀ (l : List Char) (c : Char),
    c ∈ collapseCore l → c ∈ l ∨ c = ' '
  | [], c, h => absurd h (List.not_mem_nil c)
  | a :: rest, c, h => by
    by_cases ha : isPySpace a = true
    · cases hcc : collapseCore rest with
      | nil =>
        rw [show collapseCore (a :: rest) = [] by simp [collapseCore, ha, hcc]] at h
        exact absurd h (List.not_mem_nil c)
      | cons d ds =>
        by_cases hd : d = ' '
        · rw [show collapseCore (a :: rest) = d :: ds by
            simp [collapseCore, ha, hcc, hd]] at h
          have : c ∈ collapseCore rest := by rw [hcc]; exact h
          rcases mem_collapseCore rest c this with h1 | h2
          · exact Or.inl (List.mem_cons_of_mem a h1)
          · exact Or.inr h2
        · rw [show collapseCore (a :: rest) = ' ' :: d :: ds by
            simp [collapseCore, ha, hcc, hd]] at h
          rcases List.mem_cons.mp h with h1 | h2
          · exact Or.inr h1
          · have : c ∈ collapseCore rest := by rw [hcc]; exact h2
            rcases mem_collapseCore rest c this with h3 | h4
            · exact Or.inl (List.mem_cons_of_mem a h3)
            · exact Or.inr h4
    · rw [show collapseCore (a :: rest) = a :: collapseCore rest by
        simp [collapseCore, ha]] at h
      rcases List.mem_cons.mp h with h1 | h2
      · exact Or.inl (h1 ▸ List.mem_cons_self a rest)
      · rcases mem_collapseCore rest c h2 with h3 | h4
        · exact Or.inl (List.mem_cons_of_mem a h3)
        · exact Or.inr h4

/-- Every whitespace character surviving the collapse is the plain space. -/
theorem mem_collapseCore_space : ∀ (l : List Char) (c : Char),
    c ∈ collapseCore l → isPySpace c = true → c = ' '
  | [], c, h, _ => absurd h (List.not_mem_nil c)
  | a :: rest, c, h, hsp => by
    by_cases ha : isPySpace a = true
    · cases hcc : collapseCore rest with
      | nil =>
        rw [show collapseCore (a :: rest) = [] by simp [collapseCore, ha, hcc]] at h
        exact absurd h (List.not_mem_nil c)
      | cons d ds =>
        by_cases hd : d = ' '
        · rw [show collapseCore (a :: rest) = d :: ds by
            simp [collapseCore, ha, hcc, hd]] at h
          exact mem_collapseCore_space rest c (by rw [hcc]; exact h) hsp
        · rw [show collapseCore (a :: rest) = ' ' :: d :: ds by
            simp [collapseCore, ha, hcc, hd]] at h
          rcases List.mem_cons.mp h with h1 | h2
          · exact h1
          · exact mem_collapseCore_space rest c (by rw [hcc]; exact h2) hsp
    · rw [show collapseCore (a :: rest) = a :: collapseCore rest by
        simp [collapseCore, ha]] at h
      rcases List.mem_cons.mp h with h1 | h2
      · exact absurd (h1 ▸ hsp) (by simpa using ha)
      · exact mem_collapseCore_space rest c h2 hsp

/-- No two adjacent characters of the collapsed list are both whitespace. -/
theorem chain'_collapseCore : ∀ l : List Char,
    List.Chain' (fun a b => ¬(isPySpace a = true ∧ isPySpace b = true))
      (collapseCore l)
  | [] => List.chain'_nil
  | a :: rest => by
    by_cases ha : isPySpace a = true
    · cases hcc : collapseCore rest with
      | nil =>
        rw [show collapseCore (a :: rest) = [] by simp [collapseCore, ha, hcc]]
        exact List.chain'_nil
      | cons d ds =>
        by_cases hd : d = ' '
        · rw [show collapseCore (a :: rest) = d :: ds by
            simp [collapseCore, ha, hcc, hd]]
          have := chain'_collapseCore rest
          rwa [hcc] at this
        · rw [show collapseCore (a :: rest) = ' ' :: d :: ds by
            simp [collapseCore, ha, hcc, hd]]
          refine List.chain'_cons.mpr ⟨?_, ?_⟩
          · rintro ⟨_, hdsp⟩
            exact hd (mem_collapseCore_space rest d
              (by rw [hcc]; exact List.mem_cons_self d ds) hdsp)
          · have := chain'_collapseCore rest
            rwa [hcc] at this
    · rw [show collapseCore (a :: rest) = a :: collapseCore rest by
        simp [collapseCore, ha]]
      refine List.chain'_cons'.mpr ⟨?_, chain'_collapseCore rest⟩
      rintro b _ ⟨hasp, _⟩
      exact ha hasp

/-- The collapsed list never ends in whitespace. -/
theorem getLast?_collapseCore : ∀ (l : List Char) (c : Char),
    (collapseCore l).getLast? = some c → isPySpace c = false
  | [], c, h => by simp [collapseCore] at h
  | a :: rest, c, h => by
    by_cases ha : isPySpace a = true
    · cases hcc : collapseCore rest with
      | nil =>
        rw [show collapseCore (a :: rest) = [] by simp [collapseCore, ha, hcc]] at h
        simp at h
      | cons d ds =>
        by_cases hd : d = ' '
        · rw [show collapseCore (a :: rest) = d :: ds by
            simp [collapseCore, ha, hcc, hd]] at h
          exact getLast?_collapseCore rest c (by rw [hcc]; exact h)
        · rw [show collapseCore (a :: rest) = ' ' :: d :: ds by
            simp [collapseCore, ha, hcc, hd]] at h
          rw [List.getLast?_cons_cons] at h
          exact getLast?_collapseCore rest c (by rw [hcc]; exact h)
    · rw [show collapseCore (a :: rest) = a :: collapseCore rest by
        simp [collapseCore, ha]] at h
      cases hcc : collapseCore rest with
      | nil =>
        rw [hcc, List.getLast?_singleton] at h
        have : a = c := by simpa using h
        subst this
        simpa using ha
      | cons d ds =>
        rw [hcc, List.getLast?_cons_cons] at h
        exact getLast?_collapseCore rest c (by rw [hcc]; exact h)

/-- Dropping leading whitespace preserves the `qOk` scanner ( whitespace is
never `<`). -/
theorem qOk_dropWhile_space : ∀ l : List Char, qOk l = true →
    qOk (l.dropWhile isPySpace) = true
  | [], h => h
  | a :: rest, h => by
    by_cases ha : isPySpace a = true
    · rw [List.dropWhile_cons_of_pos ha]
      have hne : ¬a = '<' := by
        intro hx; subst hx; simp [isPySpace] at ha
      exact qOk_dropWhile_space rest (by rwa [qOk_cons_ne a rest hne] at h)
    · rwa [List.dropWhile_cons_of_neg (by simpa using ha)]

/-- Whitespace collapsing preserves the `qOk` scanner: it inserts only plain
spaces and deletes only whitespace, so no new tag can appear. -/
theorem qOk_collapseCore : ∀ l : List Char, qOk l = true →
    qOk (collapseCore l) = true
  | [], h => h
  | a :: rest, h => by
    by_cases ha : isPySpace a = true
    · have hne : ¬a = '<' := by
        intro hx; subst hx; simp [isPySpace] at ha
      have hq : qOk rest = true := by rwa [qOk_cons_ne a rest hne] at h
      cases hcc : collapseCore rest with
      | nil =>
        rw [show collapseCore (a :: rest) = [] by simp [collapseCore, ha, hcc]]
        rfl
      | cons d ds =>
        have hqcc : qOk (d :: ds) = true := by
          rw [← hcc]; exact qOk_collapseCore rest hq
        by_cases hd : d = ' '
        · rw [show collapseCore (a :: rest) = d :: ds by
            simp [collapseCore, ha, hcc, hd]]
          exact hqcc
        · rw [show collapseCore (a :: rest) = ' ' :: d :: ds by
            simp [collapseCore, ha, hcc, hd]]
          rw [qOk_cons_ne ' ' _ (by decide)]
          exact hqcc
    · by_cases hlt : a = '<'
      · subst hlt
        rw [show collapseCore ('<' :: rest) = '<' :: collapseCore rest by
          simp [collapseCore, ha]]
        cases rest with
        | nil =>
          rw [show collapseCore ([] : List Char) = [] from rfl]
          rfl
        | cons d rest' =>
          by_cases hd : d = '>'
          · subst hd
            have hq : qOk ('>' :: rest') = true := by
              rw [qOk_lt_cons_gt] at h; exact h
            have := qOk_collapseCore ('>' :: rest') hq
            rw [show collapseCore ('>' :: rest') = '>' :: collapseCore rest' by
              simp [collapseCore, isPySpace]] at this ⊢
            rw [qOk_lt_cons_gt]
            exact this
          · have hng : List.contains (d :: rest') '>' = false := by
              rw [qOk_lt_cons_ne d rest' hd] at h
              simpa using h
            have hmem : '>' ∉ (d :: rest') := by simpa using hng
            have hmem2 : '>' ∉ collapseCore (d :: rest') := by
              intro hx
              rcases mem_collapseCore (d :: rest') '>' hx with h1 | h2
              · exact hmem h1
              · exact absurd h2 (by decide)
            cases hS : collapseCore (d :: rest') with
            | nil => rfl
            | cons e es =>
              have he : ¬e = '>' := by
                intro hx
                exact hmem2 (by rw [hS, hx]; exact List.mem_cons_self _ _)
              rw [qOk_lt_cons_ne e es he]
              have : List.contains (e :: es) '>' = false := by
                have : '>' ∉ (e :: es) := by rw [← hS]; exact hmem2
                simpa using this
              rw [this]
              rfl
      · rw [show collapseCore (a :: rest) = a :: collapseCore rest by
          simp [collapseCore, ha]]
        rw [qOk_cons_ne a _ hlt]
        exact qOk_collapseCore rest (by rwa [qOk_cons_ne a rest hlt] at h)

/-- The collapsed-and-trimmed list never starts with whitespace. -/
theorem head?_collapseWs (l : List Char) (c : Char)
    (h : (collapseWs l).head? = some c) : isPySpace c = false := by
  unfold collapseWs at h
  cases hdw : l.dropWhile isPySpace with
  | nil => rw [hdw] at h; simp [collapseCore] at h
  | cons a rest =>
    have ha : isPySpace a = false := by
      have := List.head?_dropWhile_not isPySpace l
      rw [hdw] at this
      simpa using this
    rw [hdw, show collapseCore (a :: rest) = a :: collapseCore rest by
      simp [collapseCore, ha]] at h
    have : a = c := by simpa using h
    subst this
    exact ha

/-- C7 counterexample: the claim says `clean_text` output contains no HTML
entity sequence, but entity decoding is a single pass, so the double-escaped
input `&amp;amp;` decodes to `&amp;` — itself an entity sequence — which
survives to the output (CPython: `html.unescape("&amp;amp;") == "&amp;"`). -/
theorem c7_counterexample :
    clean_text "&amp;amp;" = "&amp;" ∧
    hasEntitySeq (clean_text "&amp;amp;").data = true := by
  constructor
  · decide
  · decide

/-- C7 (amended): for every raw input, `clean_text` output contains no
tag-delimited `<...>` sequence, has no two adjacent whitespace characters,
and neither starts nor ends with whitespace; the empty input yields the empty
string and the function is total (no exception escapes).  The claim's "no
HTML entity sequence" part is dropped: decoding is single-pass, so a
double-escaped entity survives (see the counterexample). -/
theorem c7_amended : ∀ raw : String,
    hasTag (clean_text raw).data = false ∧
    List.Chain' (fun a b => ¬(isPySpace a = true ∧ isPySpace b = true))
      (clean_text raw).data ∧
    (∀ c, (clean_text raw).data.head? = some c → isPySpace c = false) ∧
    (∀ c, (clean_text raw).data.getLast? = some c → isPySpace c = false) ∧
    clean_text "" = "" := by
  intro raw
  by_cases hraw : raw = ""
  · subst hraw
    refine ⟨rfl, ?_, ?_, ?_, rfl⟩
    · exact List.chain'_nil
    · intro c h; simp [clean_text] at h
    · intro c h; simp [clean_text] at h
  · have hdata : (clean_text raw).data = collapseWs (stripTags (unescape raw.data)) := by
      simp [clean_text, hraw]
    refine ⟨?_, ?_, ?_, ?_, rfl⟩
    · rw [hdata]
      apply hasTag_eq_false_of_qOk
      apply qOk_collapseCore
      apply qOk_dropWhile_space
      exact qOk_stripTagsF _ _ (Nat.le_refl _)
    · rw [hdata]
      exact chain'_collapseCore _
    · intro c h
      rw [hdata] at h
      exact head?_collapseWs _ c h
    · intro c h
      rw [hdata] at h
      exact getLast?_collapseCore _ c h

/-- C7 witness: the amended theorem applied to a concrete messy input. -/
theorem c7_witness :
    isPySpace 'T' = false ∧ hasTag (clean_text "<p>Tata &amp; Sons  Q3</p>").data = false := by
  have h := c7_amended "<p>Tata &amp; Sons  Q3</p>"
  exact ⟨h.2.2.1 'T' (by decide), h.1⟩

/-- C1 counterexample: the claim says both resolvers map the fields
2024-01-15 10:00:00 to epoch 1705312800 regardless of the host's timezone,
but the polling variant's `to_ts` uses `time.mktime` (local time): on an IST
host (UTC offset +19800 s) it yields 1705293000 instead. -/
theorem c1_counterexample :
    to_ts 19800 (some ⟨2024, 1, 15, 10, 0, 0⟩) = some 1705293000 ∧
    ¬(some (1705293000 : Int) = some (1705312800 : Int)) := by
  constructor
  · decide
  · decide

/-- On fields `datetime.date` accepts (month 1..12), `mktime`'s carrying
normalisation is the identity, so its reading agrees with `timegm`'s. -/
theorem mktimeFields_eq_timegm (s : StructTime) (h : tsFieldsOk s = true) :
    mktimeFields s = timegm s := by
  have hm : 1 ≤ s.mon ∧ s.mon ≤ 12 := by
    unfold tsFieldsOk at h
    simp only [Bool.and_eq_true, decide_eq_true_eq] at h
    exact ⟨h.1.2, h.2⟩
  have h1 : (12 * s.year + s.mon - 1) / 12 = s.year := by omega
  have h2 : (12 * s.year + s.mon - 1) % 12 + 1 = s.mon := by omega
  unfold mktimeFields timegm
  dsimp only
  rw [h1, h2]

/-- C1 (amended): the stateless `to_ts_utc` does interpret the fields as UTC
(2024-01-15 10:00:00 ↦ 1705312800); absent input yields `None` in both
variants without raising, and fields `datetime.date` rejects (such as month
13) yield `None` from `to_ts_utc`; but the polling `to_ts` interprets the
fields as host-local time — on valid fields it returns the UTC reading
shifted by the host's UTC offset, agreeing with the claim only on a UTC
host — and instead of failing on out-of-range fields it normalises them as C
`mktime` does (month 13 is January of the next year). -/
theorem c1_amended :
    to_ts_utc (some ⟨2024, 1, 15, 10, 0, 0⟩) = some 1705312800 ∧
    to_ts_utc none = none ∧
    (∀ tz : Int, to_ts tz none = none) ∧
    (∀ (tz : Int) (s : StructTime), tsFieldsOk s = true →
      to_ts tz (some s) = (to_ts_utc (some s)).map (fun v => v - tz)) ∧
    (∀ s : StructTime, tsFieldsOk s = true →
      to_ts 0 (some s) = to_ts_utc (some s)) ∧
    (∀ s : StructTime, tsFieldsOk s = false → to_ts_utc (some s) = none) ∧
    to_ts 19800 (some ⟨2024, 13, 1, 0, 0, 0⟩) =
      to_ts 19800 (some ⟨2025, 1, 1, 0, 0, 0⟩) := by
  refine ⟨by decide, rfl, fun _ => rfl, ?_, ?_, ?_, by decide⟩
  · intro tz s h
    show some (mktimeFields s - tz) = (to_ts_utc (some s)).map (fun v => v - tz)
    rw [mktimeFields_eq_timegm s h,
      show to_ts_utc (some s) = some (timegm s) by simp [to_ts_utc, h]]
    rfl
  · intro s h
    show some (mktimeFields s - 0) = to_ts_utc (some s)
    rw [mktimeFields_eq_timegm s h,
      show to_ts_utc (some s) = some (timegm s) by simp [to_ts_utc, h]]
    simp
  · intro s h
    simp [to_ts_utc, h]

/-- C1 witness: the amended theorem's local-time relation exercised on valid
fields at the IST offset, and the invalid-fields clause of `to_ts_utc`
exercised at month 13. -/
theorem c1_witness :
    to_ts 19800 (some ⟨2024, 1, 15, 10, 0, 0⟩) =
      (to_ts_utc (some ⟨2024, 1, 15, 10, 0, 0⟩)).map (fun v => v - 19800) ∧
    to_ts_utc (some ⟨2024, 13, 1, 0, 0, 0⟩) = none :=
  ⟨c1_amended.2.2.2.1 19800 ⟨2024, 1, 15, 10, 0, 0⟩ (by decide),
   c1_amended.2.2.2.2.2.1 ⟨2024, 13, 1, 0, 0, 0⟩ (by decide)⟩

/-- The shared inclusion/exclusion shape of both `passes_filter` variants,
related to the spec's quantified formulation. -/
theorem filter_shape_iff (incl excl : List String) (t : String) :
    (if excl.any (fun x => pyInStr x t) then false
     else incl.any (fun k => pyInStr k t)) = true ↔
    ((∃ k ∈ incl, pyInStr k t = true) ∧ (∀ x ∈ excl, pyInStr x t = false)) := by
  by_cases hE : excl.any (fun x => pyInStr x t) = true
  · rw [if_pos hE]
    constructor
    · intro h
      exact (Bool.false_ne_true h).elim
    · rintro ⟨_, hX⟩
      exfalso
      rcases List.any_eq_true.mp hE with ⟨x, hx, hpx⟩
      rw [hX x hx] at hpx
      cases hpx
  · rw [if_neg hE]
    have hE' : ∀ x ∈ excl, pyInStr x t = false := by
      intro x hx
      by_contra hc
      exact hE (List.any_eq_true.mpr ⟨x, hx, Bool.not_eq_false _ |>.mp hc⟩)
    constructor
    · intro h
      exact ⟨List.any_eq_true.mp h, hE'⟩
    · rintro ⟨hI, _⟩
      exact List.any_eq_true.mpr hI

/-- C3 counterexample: the claim says every non-trusted entry is accepted iff
the combined title + summary haystack matches an inclusion keyword and no
exclusion keyword; for the polling variant's entry "Company announces
payout" / "dividend declared today" from "LiveMint Markets" the combined
haystack satisfies that rule, yet the code rejects the entry, because
`fetch_once` passes only the title to the filter. -/
theorem c3_counterexample :
    specFilterAccepts App.INCLUDE_KEYWORDS App.EXCLUDE_KEYWORDS
      "Company announces payout" "dividend declared today" = true ∧
    App.filterStage "LiveMint Markets" "Company announces payout" = false := by
  constructor
  · decide
  · decide

/-- C3 (amended): both `passes_filter` variants accept iff the lower-cased
haystack they are given contains an inclusion keyword and no exclusion
keyword (exclusion taking precedence); the stateless variant feeds them the
combined `title ++ " " ++ summary` haystack, but the polling variant feeds
the title alone; a text containing both "dividend" and "bitcoin" is rejected
by both. -/
theorem c3_amended :
    (∀ text : String, Api.passes_filter text = true ↔
      ((∃ k ∈ Api.INCLUDE_KEYWORDS, pyInStr k (pyLower text) = true) ∧
       (∀ x ∈ Api.EXCLUDE_KEYWORDS, pyInStr x (pyLower text) = false))) ∧
    (∀ title : String, App.passes_filter title = true ↔
      ((∃ k ∈ App.INCLUDE_KEYWORDS, pyInStr k (pyLower title) = true) ∧
       (∀ x ∈ App.EXCLUDE_KEYWORDS, pyInStr x (pyLower title) = false))) ∧
    (∀ sourceName title summary, pyStartsWith sourceName "NSE " = false →
      Api.filterStage sourceName title summary =
        Api.passes_filter (title ++ " " ++ summary)) ∧
    (∀ source title, ¬source = "NSE Corporate Actions (Official)" →
      App.filterStage source title = App.passes_filter title) ∧
    Api.passes_filter "Dividend and bitcoin rally" = false ∧
    App.passes_filter "Dividend and bitcoin rally" = false := by
  refine ⟨?_, ?_, ?_, ?_, by decide, by decide⟩
  · intro text
    exact filter_shape_iff Api.INCLUDE_KEYWORDS Api.EXCLUDE_KEYWORDS (pyLower text)
  · intro title
    exact filter_shape_iff App.INCLUDE_KEYWORDS App.EXCLUDE_KEYWORDS (pyLower title)
  · intro sourceName title summary h
    simp [Api.filterStage, h]
  · intro source title h
    simp [App.filterStage, h]

/-- C3 witness: the amended equivalence applied at concrete haystacks. -/
theorem c3_witness :
    Api.passes_filter "NSE board meeting" = true ∧
    App.passes_filter "dividend season" = true := by
  refine ⟨?_, ?_⟩
  · exact (c3_amended.1 "NSE board meeting").mpr
      ⟨⟨"nse", by decide, by decide⟩, by decide⟩
  · exact (c3_amended.2.1 "dividend season").mpr
      ⟨⟨"dividend", by decide, by decide⟩, by decide⟩

/-- C4 (confirmed): any source whose name starts with `"NSE "` bypasses the
keyword filter in the stateless variant, and the trusted source name does in
the polling variant, regardless of the entry text; the same text from
"LiveMint Markets" with no inclusion-keyword match is rejected in both. -/
theorem c4_confirmed :
    (∀ src title summary, pyStartsWith src "NSE " = true →
      Api.filterStage src title summary = true) ∧
    (∀ title, App.filterStage "NSE Corporate Actions (Official)" title = true) ∧
    (∀ title summary,
      (∀ k ∈ Api.INCLUDE_KEYWORDS,
        pyInStr k (pyLower (title ++ " " ++ summary)) = false) →
      Api.filterStage "LiveMint Markets" title summary = false) ∧
    (∀ title,
      (∀ k ∈ App.INCLUDE_KEYWORDS, pyInStr k (pyLower title) = false) →
      App.filterStage "LiveMint Markets" title = false) := by
  refine ⟨?_, ?_, ?_, ?_⟩
  · intro src title summary h
    simp [Api.filterStage, h]
  · intro title
    simp [App.filterStage]
  · intro title summary h
    have hst : pyStartsWith "LiveMint Markets" "NSE " = false := by decide
    have hp : Api.passes_filter (title ++ " " ++ summary) = false := by
      rw [Bool.eq_false_iff]
      intro hT
      have hiff := filter_shape_iff Api.INCLUDE_KEYWORDS Api.EXCLUDE_KEYWORDS
        (pyLower (title ++ " " ++ summary))
      rcases (hiff.mp hT).1 with ⟨k, hk, hin⟩
      rw [h k hk] at hin
      cases hin
    show (pyStartsWith "LiveMint Markets" "NSE "
      || Api.passes_filter (title ++ " " ++ summary)) = false
    rw [hst, hp]
    rfl
  · intro title h
    have hp : App.passes_filter title = false := by
      rw [Bool.eq_false_iff]
      intro hT
      have hiff := filter_shape_iff App.INCLUDE_KEYWORDS App.EXCLUDE_KEYWORDS
        (pyLower title)
      rcases (hiff.mp hT).1 with ⟨k, hk, hin⟩
      rw [h k hk] at hin
      cases hin
    have hsrc : ¬("LiveMint Markets" : String) = "NSE Corporate Actions (Official)" := by
      decide
    show (decide (("LiveMint Markets" : String) = "NSE Corporate Actions (Official)")
      || App.passes_filter title) = false
    rw [decide_eq_false hsrc, hp]
    rfl

/-- C4 witness: the trusted source passes even text built solely from
exclusion keywords, and a keyword-free text from LiveMint is rejected, in
both variants. -/
theorem c4_witness :
    Api.filterStage "NSE Corporate Actions (Official)" "crypto bitcoin rally" "" = true ∧
    App.filterStage "NSE Corporate Actions (Official)" "crypto bitcoin rally" = true ∧
    Api.filterStage "LiveMint Markets" "zzz" "" = false ∧
    App.filterStage "LiveMint Markets" "zzz" = false := by
  refine ⟨?_, ?_, ?_, ?_⟩
  · exact c4_confirmed.1 "NSE Corporate Actions (Official)" "crypto bitcoin rally" ""
      (by decide)
  · exact c4_confirmed.2.1 "crypto bitcoin rally"
  · exact c4_confirmed.2.2.1 "zzz" "" (by decide)
  · exact c4_confirmed.2.2.2 "zzz" (by decide)

/-- C5 counterexample: the claim says any non-2xx HTTP status yields `None`,
but `raise_for_status` raises only for 4xx/5xx: a final 300 response whose
body parses cleanly (bozo unset) is returned as a feed, not `None`. -/
theorem c5_counterexample :
    is2xx 300 = false ∧
    fetch_feed (fun _ => ⟨false, []⟩) (ReqResult.ok 300 []) =
      some ⟨false, []⟩ := by
  constructor
  · decide
  · decide

/-- C5 (amended): for every decoder, `fetch_feed` is total (no error reaches
the caller) and returns `None` on a timeout, a connection error, an HTTP
status in 400-599, or a bozo-flagged parse; on any other status with a clean
parse it returns the feed itself — in particular a clean parse with zero
entries is `some feed`, distinct from the `None` failure value. -/
theorem c5_amended : ∀ parse : List Nat → Feed,
    fetch_feed parse ReqResult.timeout = none ∧
    fetch_feed parse ReqResult.connError = none ∧
    (∀ (s : Nat) (c : List Nat), 400 ≤ s → s < 600 →
      fetch_feed parse (ReqResult.ok s c) = none) ∧
    (∀ (s : Nat) (c : List Nat), ¬(400 ≤ s ∧ s < 600) → (parse c).bozo = true →
      fetch_feed parse (ReqResult.ok s c) = none) ∧
    (∀ (s : Nat) (c : List Nat), ¬(400 ≤ s ∧ s < 600) → (parse c).bozo = false →
      fetch_feed parse (ReqResult.ok s c) = some (parse c) ∧
        ¬fetch_feed parse (ReqResult.ok s c) = none) := by
  intro parse
  refine ⟨rfl, rfl, ?_, ?_, ?_⟩
  · intro s c h1 h2
    simp [fetch_feed, h1, h2]
  · intro s c h1 h2
    rw [show fetch_feed parse (ReqResult.ok s c) =
        (if 400 ≤ s ∧ s < 600 then none
         else if (parse c).bozo then none else some (parse c)) from rfl]
    rw [if_neg h1, if_pos h2]
  · intro s c h1 h2
    have hval : fetch_feed parse (ReqResult.ok s c) = some (parse c) := by
      rw [show fetch_feed parse (ReqResult.ok s c) =
          (if 400 ≤ s ∧ s < 600 then none
           else if (parse c).bozo then none else some (parse c)) from rfl]
      rw [if_neg h1, if_neg (by simp [h2])]
    exact ⟨hval, by rw [hval]; exact fun h => Option.noConfusion h⟩

/-- C5 witness: the amended theorem at concrete transport outcomes and a
concrete decoder. -/
theorem c5_witness :
    fetch_feed (fun _ => ⟨false, []⟩) ReqResult.timeout = none ∧
    fetch_feed (fun _ => ⟨false, []⟩) (ReqResult.ok 404 []) = none ∧
    fetch_feed (fun _ => ⟨true, []⟩) (ReqResult.ok 200 []) = none ∧
    fetch_feed (fun _ => ⟨false, []⟩) (ReqResult.ok 200 []) = some ⟨false, []⟩ := by
  refine ⟨(c5_amended _).1, ?_, ?_, ?_⟩
  · exact (c5_amended _).2.2.1 404 [] (by decide) (by decide)
  · exact (c5_amended (fun _ => ⟨true, []⟩)).2.2.2.1 200 [] (by decide) rfl
  · exact ((c5_amended (fun _ => ⟨false, []⟩)).2.2.2.2 200 [] (by decide) rfl).1

/-- C8 (confirmed): inserting a row whose `(title, source)` key already
exists in the table is a silent no-op — the table, and hence every field of
the existing record (including `published_ts`, `link`, `summary` and
`fetched_ts`), is unchanged, `rowcount` is 0, and no error is raised (the
model is a total function). -/
theorem c8_confirmed : ∀ (db : App.DB) (r : App.Row),
    (∃ x ∈ db, x.title = r.title ∧ x.source = r.source) →
    App.insertOrIgnore db r = (db, false) := by
  intro db r h
  unfold App.insertOrIgnore
  rw [if_pos h]

/-- C8 witness: a duplicate `(title, source)` arrival with different link,
summary and timestamps leaves the stored record untouched. -/
theorem c8_witness :
    App.insertOrIgnore [⟨"T", "l1", "S", "s1", some 5, 10⟩]
      ⟨"T", "l2", "S", "s2", some 999, 20⟩ =
    ([⟨"T", "l1", "S", "s1", some 5, 10⟩], false) :=
  c8_confirmed [⟨"T", "l1", "S", "s1", some 5, 10⟩]
    ⟨"T", "l2", "S", "s2", some 999, 20⟩
    ⟨⟨"T", "l1", "S", "s1", some 5, 10⟩, by decide, rfl, rfl⟩

/-- Appending a fresh item together with its key preserves the invariant. -/
theorem Api.aggInv_push (st : Api.AggState) (i : Api.Item)
    (h : Api.aggInv st) (hk : Api.memKey i ∉ st.seen) :
    Api.aggInv ⟨st.items ++ [i], st.seen ++ [Api.memKey i]⟩ := by
  obtain ⟨hiff, hnd⟩ := h
  have hkm : Api.memKey i ∉ st.items.map Api.memKey := fun hm => hk ((hiff _).mpr hm)
  constructor
  · intro k
    simp only [List.mem_append, List.map_append, List.map_cons, List.map_nil,
      List.mem_singleton]
    rw [hiff k]
  · rw [List.map_append]
    simp only [List.map_cons, List.map_nil]
    simp [List.nodup_append, hnd, hkm]

/-- The entry step preserves the invariant. -/
theorem Api.procEntry_inv (q sourceName : String) (st : Api.AggState)
    (e : RawEntry) (h : Api.aggInv st) :
    Api.aggInv (Api.procEntry q sourceName st e) := by
  unfold Api.procEntry
  dsimp only
  split
  · exact h
  · split
    · exact h
    · split
      · exact h
      · split
        · exact h
        · rename_i hnotseen
          exact Api.aggInv_push st _ h hnotseen

/-- The source step preserves the invariant. -/
theorem Api.procFeed_inv (q src : String) (st : Api.AggState)
    (nf : String × Option Feed) (h : Api.aggInv st) :
    Api.aggInv (Api.procFeed q src st nf) := by
  unfold Api.procFeed
  split
  · exact h
  · split
    · exact h
    · exact foldlInv _ Api.aggInv
        (fun s e hs => Api.procEntry_inv q nf.1 s e hs) _ st h

/-- The collected item list carries pairwise-distinct dedup keys. -/
theorem Api.collect_nodup (q src : String) (feeds : List (String × Option Feed)) :
    ((Api.collectItems q src feeds).map Api.memKey).Nodup := by
  have h : Api.aggInv (feeds.foldl (Api.procFeed q src) ⟨[], []⟩) :=
    foldlInv _ Api.aggInv (fun s nf hs => Api.procFeed_inv q src s nf hs) feeds
      ⟨[], []⟩ ⟨fun k => by simp, List.nodup_nil⟩
  exact h.2

/-- `INSERT OR IGNORE` preserves the uniqueness invariant. -/
theorem App.insertOrIgnore_nodup (db : App.DB) (r : App.Row)
    (h : App.dbNodup db) : App.dbNodup (App.insertOrIgnore db r).1 := by
  unfold App.insertOrIgnore
  split
  · exact h
  · rename_i hnot
    have hkm : App.rowKey r ∉ db.map App.rowKey := by
      intro hm
      rcases List.mem_map.mp hm with ⟨x, hx, hkey⟩
      exact hnot ⟨x, hx, congrArg Prod.fst hkey, congrArg Prod.snd hkey⟩
    unfold App.dbNodup
    rw [List.map_append]
    simp only [List.map_cons, List.map_nil]
    simp only [List.nodup_append]
    exact ⟨h, List.nodup_singleton _, by simp [hkm]⟩

/-- The entry step of `fetch_once` preserves the uniqueness invariant. -/
theorem App.procEntryA_nodup (tz now : Int) (src : String) (acc : App.DB × Nat)
    (e : RawEntry) (h : App.dbNodup acc.1) :
    App.dbNodup (App.procEntryA tz now src acc e).1 := by
  unfold App.procEntryA
  dsimp only
  split
  · exact h
  · split
    · exact h
    · split
      · exact App.insertOrIgnore_nodup _ _ h
      · exact h

/-- The source step of `fetch_once` preserves the uniqueness invariant. -/
theorem App.procSource_nodup (tz now : Int) (st : App.LoopState)
    (sr : String × App.SourceResult) (h : App.dbNodup st.db) :
    App.dbNodup (App.procSource tz now st sr).db := by
  rcases sr with ⟨name, res⟩
  cases res with
  | bozo n => exact h
  | exc n => exact h
  | parsed es =>
    show App.dbNodup ((es.take 50).foldl (App.procEntryA tz now name) (st.db, 0)).1
    exact foldlInv _ (fun (p : App.DB × Nat) => App.dbNodup p.1)
      (fun s e hs => App.procEntryA_nodup tz now name s e hs) _ (st.db, 0) h

/-- A whole poll cycle preserves the uniqueness invariant. -/
theorem App.fetch_once_nodup (tz now : Int)
    (results : List (String × App.SourceResult)) (db : App.DB) (st : App.Status)
    (h : App.dbNodup db) :
    App.dbNodup (App.fetch_once tz now results db st).1 := by
  unfold App.fetch_once App.runSources
  dsimp only
  exact foldlInv _ (fun (l : App.LoopState) => App.dbNodup l.db)
    (fun s sr hs => App.procSource_nodup tz now s sr hs) results
    ⟨db, 0, [], st.last_error⟩ h

/-- C2 counterexample: in the stateless variant, the dedup key is
`(link or title, source)`, not `(title, source)`: two entries with the same
title and source but different links both survive one aggregation run, so
the aggregate holds two items with the same `(title, source)` pair and the
second arrival is not dropped. -/
theorem c2_counterexample :
    (Api.collectItems "" "" c2Feeds).map (fun i => (i.title, i.source)) =
      [("Record date announced", "NSE Corporate Actions (Official)"),
       ("Record date announced", "NSE Corporate Actions (Official)")] := by
  decide

/-- C2 (amended): the persistent variant dedups on `(title, source)` — over
any two poll cycles no two rows of the items table ever share that pair —
while the in-memory variant dedups on `(link or title, source)`: its
aggregate (both as collected and as sorted for output) never holds two items
sharing that key, but identical `(title, source)` pairs can coexist under
distinct links. -/
theorem c2_amended :
    (∀ (tz1 now1 tz2 now2 : Int) res1 res2 (db : App.DB)
        (st1 st2 : App.Status),
      (db.map App.rowKey).Nodup →
      (((App.fetch_once tz2 now2 res2
          (App.fetch_once tz1 now1 res1 db st1).1 st2).1).map App.rowKey).Nodup) ∧
    (∀ q src feeds, ((Api.collectItems q src feeds).map Api.memKey).Nodup) ∧
    (∀ q src feeds, ((Api.sortedItems q src feeds).map Api.memKey).Nodup) := by
  refine ⟨?_, ?_, ?_⟩
  · intro tz1 now1 tz2 now2 res1 res2 db st1 st2 h
    exact App.fetch_once_nodup tz2 now2 res2 _ st2
      (App.fetch_once_nodup tz1 now1 res1 db st1 h)
  · intro q src feeds
    exact Api.collect_nodup q src feeds
  · intro q src feeds
    have hperm : List.Perm (Api.sortedItems q src feeds)
        (Api.collectItems q src feeds) :=
      List.perm_insertionSort Api.keyGe (Api.collectItems q src feeds)
    exact ((hperm.map Api.memKey).nodup_iff).mpr (Api.collect_nodup q src feeds)

/-- C2 witness: feeding the same `(title, source)` entry twice in each of two
poll cycles against an empty store leaves a table with pairwise-distinct
`(title, source)` keys (indeed a single row). -/
theorem c2_witness :
    (((App.fetch_once 0 160 c2AppRes
        (App.fetch_once 0 100 c2AppRes [] ⟨none, [], none⟩).1
        (App.fetch_once 0 100 c2AppRes [] ⟨none, [], none⟩).2).1).map
      App.rowKey).Nodup :=
  c2_amended.1 0 100 0 160 c2AppRes c2AppRes [] ⟨none, [], none⟩
    (App.fetch_once 0 100 c2AppRes [] ⟨none, [], none⟩).2 (by decide)

/-- C6 counterexample: items lacking a timestamp are not always placed after
items that have one.  Stateless variant: the sort key is `published_ts or 0`,
so an item with no timestamp ties with an item whose resolved timestamp is
epoch 0 and, arriving earlier, stays in front of it.  Store variant: the
query orders by `COALESCE(published_ts, fetched_ts)`, so a row with a NULL
`published_ts` but a recent `fetched_ts` sorts before rows with older real
timestamps. -/
theorem c6_counterexample :
    (Api.sortedItems "" "" c6Feeds).map (fun i => i.published_ts) =
      [none, some 0] ∧
    (App.api_news [c6Row1, c6Row2]).map (fun r => r.published_ts) =
      [none, some 500] := by
  constructor
  · decide
  · decide

/-- C6 (amended): the stateless response is the stable descending sort of
the aggregate by the key `published_ts or 0` (so a missing timestamp is
ranked as 0, not strictly last), truncated to 150 items; the store queries
order by `COALESCE(published_ts, fetched_ts)` descending (a row lacking
`published_ts` is ranked by its `fetched_ts`) and are limited to 250 rows
(raw API) or 150 rows (page). -/
theorem c6_amended :
    (∀ q src feeds, List.Sorted Api.keyGe (Api.sortedItems q src feeds) ∧
      List.Perm (Api.sortedItems q src feeds) (Api.collectItems q src feeds)) ∧
    (∀ qA sA feeds now, (Api.api_news qA sA feeds now).items.length ≤ 150) ∧
    (∀ db : App.DB,
      List.Sorted App.coalGe (List.insertionSort App.coalGe db) ∧
      List.Perm (List.insertionSort App.coalGe db) db ∧
      App.api_news db = (List.insertionSort App.coalGe db).take 250 ∧
      (App.api_news db).length ≤ 250 ∧ (App.pageQuery db).length ≤ 150) := by
  refine ⟨?_, ?_, ?_⟩
  · intro q src feeds
    exact ⟨List.sorted_insertionSort Api.keyGe (Api.collectItems q src feeds),
      List.perm_insertionSort Api.keyGe (Api.collectItems q src feeds)⟩
  · intro qA sA feeds now
    show (((Api.sortedItems (pyLower (pyStrip qA)) (pyStrip sA) feeds).take 150).map
      Api.serializeItem).length ≤ 150
    rw [List.length_map, List.length_take]
    exact min_le_left _ _
  · intro db
    refine ⟨List.sorted_insertionSort App.coalGe db,
      List.perm_insertionSort App.coalGe db, rfl, ?_, ?_⟩
    · show ((List.insertionSort App.coalGe db).take 250).length ≤ 250
      rw [List.length_take]
      exact min_le_left _ _
    · show ((List.insertionSort App.coalGe db).take 150).length ≤ 150
      rw [List.length_take]
      exact min_le_left _ _

/-- When no source raises, the source loop leaves `last_error` untouched. -/
theorem App.foldl_lastErr_of_no_exc (tz now : Int) :
    ∀ (res : List (String × App.SourceResult)) (s : App.LoopState),
      (∀ sr ∈ res, App.isExc sr.2 = false) →
      (res.foldl (App.procSource tz now) s).lastErr = s.lastErr
  | [], _, _ => rfl
  | sr :: res, s, h => by
    have h1 : App.isExc sr.2 = false := h sr (List.mem_cons_self _ _)
    have h2 : ∀ x ∈ res, App.isExc x.2 = false :=
      fun x hx => h x (List.mem_cons_of_mem _ hx)
    rw [List.foldl_cons, App.foldl_lastErr_of_no_exc tz now res _ h2]
    rcases sr with ⟨name, r⟩
    cases r with
    | bozo n => rfl
    | exc n => simp [App.isExc] at h1
    | parsed es => rfl

/-- The table, insert count and per-source outcomes computed by the source
loop do not depend on the incoming `last_error` (or any other component
beyond the three listed). -/
theorem App.foldl_indep (tz now : Int) :
    ∀ (res : List (String × App.SourceResult)) (s1 s2 : App.LoopState),
      s1.db = s2.db → s1.total = s2.total → s1.ps = s2.ps →
      ((res.foldl (App.procSource tz now) s1).db =
         (res.foldl (App.procSource tz now) s2).db ∧
       (res.foldl (App.procSource tz now) s1).total =
         (res.foldl (App.procSource tz now) s2).total ∧
       (res.foldl (App.procSource tz now) s1).ps =
         (res.foldl (App.procSource tz now) s2).ps)
  | [], _, _, h1, h2, h3 => ⟨h1, h2, h3⟩
  | sr :: res, s1, s2, h1, h2, h3 => by
    rw [List.foldl_cons, List.foldl_cons]
    apply App.foldl_indep tz now res
    · rcases sr with ⟨name, r⟩
      cases r with
      | bozo n => simpa [App.procSource] using h1
      | exc n => simpa [App.procSource] using h1
      | parsed es => simp [App.procSource, h1]
    · rcases sr with ⟨name, r⟩
      cases r with
      | bozo n => simpa [App.procSource] using h2
      | exc n => simpa [App.procSource] using h2
      | parsed es => simp [App.procSource, h1, h2]
    · rcases sr with ⟨name, r⟩
      cases r with
      | bozo n => simp [App.procSource, h3]
      | exc n => simp [App.procSource, h3]
      | parsed es => simp [App.procSource, h1, h3]

/-- C9 counterexample: `last_error` is never reset between cycles, so a
second cycle that inserts zero rows and records no per-source error does not
receive the generic diagnostic — the stale error of the first cycle is kept
instead. -/
theorem c9_counterexample :
    (App.fetch_once 0 160 c9Res2
        (App.fetch_once 0 100 c9Res1 [] c9Status0).1
        (App.fetch_once 0 100 c9Res1 [] c9Status0).2).2.last_error =
      some "LiveMint Markets: Timeout" ∧
    ¬("LiveMint Markets: Timeout" = App.genericMsg) ∧
    (App.fetch_once 0 160 c9Res2
        (App.fetch_once 0 100 c9Res1 [] c9Status0).1
        (App.fetch_once 0 100 c9Res1 [] c9Status0).2).2.per_source =
      [("LiveMint Markets", "ok (+0)")] := by
  refine ⟨?_, ?_, ?_⟩
  · decide
  · decide
  · decide

/-- C9 (amended): at cycle end, `last_run` is always overwritten with the
cycle's own stamp and `per_source` with the cycle's own outcomes (independent
of any earlier status); a zero-insertion cycle with no exception sets the
generic diagnostic only when `last_error` was already empty — a stale error
from an earlier cycle is kept instead, suppressing the generic message. -/
theorem c9_amended :
    (∀ (tz now : Int) res (db : App.DB) (st : App.Status),
      (App.fetch_once tz now res db st).2.last_run = fmt_ts (some now)) ∧
    (∀ (tz now : Int) res (db : App.DB) (st st' : App.Status),
      (App.fetch_once tz now res db st).2.per_source =
        (App.fetch_once tz now res db st').2.per_source) ∧
    (∀ (tz now : Int) res (db : App.DB) (st : App.Status),
      (∀ sr ∈ res, App.isExc sr.2 = false) → st.last_error = none →
      (App.runSources tz now res db st.last_error).total = 0 →
      (App.fetch_once tz now res db st).2.last_error = some App.genericMsg) ∧
    (∀ (tz now : Int) res (db : App.DB) (st : App.Status) (e : String),
      (∀ sr ∈ res, App.isExc sr.2 = false) → st.last_error = some e →
      (App.fetch_once tz now res db st).2.last_error = some e) := by
  refine ⟨?_, ?_, ?_, ?_⟩
  · intro tz now res db st
    rfl
  · intro tz now res db st st'
    show (App.runSources tz now res db st.last_error).ps =
      (App.runSources tz now res db st'.last_error).ps
    exact (App.foldl_indep tz now res ⟨db, 0, [], st.last_error⟩
      ⟨db, 0, [], st'.last_error⟩ rfl rfl rfl).2.2
  · intro tz now res db st hne hle htot
    show (if (App.runSources tz now res db st.last_error).total = 0 ∧
        (App.runSources tz now res db st.last_error).lastErr = none
      then some App.genericMsg
      else (App.runSources tz now res db st.last_error).lastErr) =
      some App.genericMsg
    have hlerr : (App.runSources tz now res db st.last_error).lastErr = none := by
      unfold App.runSources
      rw [App.foldl_lastErr_of_no_exc tz now res _ hne]
      exact hle
    rw [if_pos ⟨htot, hlerr⟩]
  · intro tz now res db st e hne hle
    show (if (App.runSources tz now res db st.last_error).total = 0 ∧
        (App.runSources tz now res db st.last_error).lastErr = none
      then some App.genericMsg
      else (App.runSources tz now res db st.last_error).lastErr) = some e
    have hlerr : (App.runSources tz now res db st.last_error).lastErr = some e := by
      unfold App.runSources
      rw [App.foldl_lastErr_of_no_exc tz now res _ hne]
      exact hle
    rw [if_neg (fun hc => by rw [hlerr] at hc; exact Option.noConfusion hc.2), hlerr]

/-- C9 witness: a first-ever cycle that inserts nothing and sees no
exception does get the generic diagnostic, and its `last_run` is stamped. -/
theorem c9_witness :
    (App.fetch_once 0 50 c9Res2 [] c9Status0).2.last_error =
      some App.genericMsg ∧
    (App.fetch_once 0 50 c9Res2 [] c9Status0).2.last_run = fmt_ts (some 50) := by
  constructor
  · exact c9_amended.2.2.1 0 50 c9Res2 [] c9Status0 (by decide) rfl (by decide)
  · exact c9_amended.1 0 50 c9Res2 [] c9Status0

/-- C10 (confirmed): the response's `count` is the length of the aggregated
list before the 150-item truncation, the serialised items are exactly the
first 150 of the sorted aggregate with `published_ts` stripped (a
`SerialItem` carries exactly `title`, `link`, `source`, `summary`,
`published`), and once more than 150 items qualify, `count` strictly exceeds
the length of the serialised array. -/
theorem c10_confirmed : ∀ (qA sA : String) feeds (now : Int),
    (Api.api_news qA sA feeds now).count =
      (Api.sortedItems (pyLower (pyStrip qA)) (pyStrip sA) feeds).length ∧
    (Api.api_news qA sA feeds now).items =
      ((Api.sortedItems (pyLower (pyStrip qA)) (pyStrip sA) feeds).take 150).map
        Api.serializeItem ∧
    (150 < (Api.sortedItems (pyLower (pyStrip qA)) (pyStrip sA) feeds).length →
      (Api.api_news qA sA feeds now).items.length <
        (Api.api_news qA sA feeds now).count) := by
  intro qA sA feeds now
  refine ⟨rfl, rfl, ?_⟩
  intro h
  show (((Api.sortedItems (pyLower (pyStrip qA)) (pyStrip sA) feeds).take 150).map
      Api.serializeItem).length <
    (Api.sortedItems (pyLower (pyStrip qA)) (pyStrip sA) feeds).length
  rw [List.length_map, List.length_take, min_eq_left (le_of_lt h)]
  exact h

/-- C10 witness: with 151 qualifying items (four trusted sources), the
serialised array is strictly shorter than `count`. -/
theorem c10_witness :
    150 < (Api.sortedItems (pyLower (pyStrip "")) (pyStrip "") c10Feeds).length ∧
    (Api.api_news "" "" c10Feeds 0).items.length <
      (Api.api_news "" "" c10Feeds 0).count := by
  have h : 150 < (Api.sortedItems (pyLower (pyStrip "")) (pyStrip "") c10Feeds).length := by
    decide
  exact ⟨h, (c10_confirmed "" "" c10Feeds 0).2.2 h⟩
